import Mathlib

/-!
Verification of the client-side resilience layer of the `ai-audio-guide`
miniapp: the tiered cache engine (`miniapp/utils/cache.js`, `CacheManager`),
the audio playback controller (`AudioManager`, second half of the same
bundle), and the resilient request pipeline (`RequestManager` in
`miniapp/utils/config.js` bundle).

Conventions of the shallow embedding:
* JavaScript `Date.now()` timestamps are passed explicitly as `Nat` arguments
  (`now`), turning the stateful classes into pure state-transformers.
* JS `Map` objects are association lists (`List (String × _)`); `Map.set` on
  an existing key updates the binding in place (preserving insertion order),
  `Map.delete` removes the binding.
* A JS value is a `JVal`; the JS `null` is the distinguished `JVal.null`,
  which is also what `getMemory`/`getStorage` return on a miss (exactly as in
  the source, where a stored `null` and a miss are the same observable).
* JS integer-valued numbers (timestamps, counters, char codes) are modelled
  exactly (Nat/Int); bitwise int32 wrap-around is made explicit through
  `toInt32` with `% 2^32`; the one fractional computation
  (`getStats`'s hit rate) is modelled as IEEE-754 binary64 arithmetic (`FP`,
  `flDiv`, `flMul100`).
* Asynchronous code (promises, event listeners) is modelled by explicit state
  passing plus event-firing step functions (`fireCanplay`, `fireWaitTimeout`).
-/

/-! ### String helpers: JS `String.prototype.includes` -/

/-- `leadsWith pat l` holds when `pat` is an initial segment of `l`. -/
def leadsWith : List Char → List Char → Bool
  | [], _ => true
  | _ :: _, [] => false
  | p :: ps, c :: cs => p == c && leadsWith ps cs

/-- `hasSub pat l`: `pat` occurs contiguously inside `l`. -/
def hasSub (pat : List Char) : List Char → Bool
  | [] => leadsWith pat []
  | c :: cs => leadsWith pat (c :: cs) || hasSub pat cs

/-- Model of JS `s.includes(pat)`. -/
def strIncludes (s pat : String) : Bool :=
  hasSub pat.data s.data

/-! ### Decimal rendering of natural numbers (JS number → string templates)

Fuel-based so the definition is structurally recursive; `fuel = n + 1` always
suffices because the argument shrinks by a factor of ten each step. -/

def digitChar (d : Nat) : Char := Char.ofNat (48 + d)

def natReprAux : Nat → Nat → List Char
  | 0, _ => []
  | fuel + 1, n =>
    if n < 10 then [digitChar n]
    else natReprAux fuel (n / 10) ++ [digitChar (n % 10)]

/-- Decimal digits of `n`, as produced by JS string interpolation. -/
def natRepr (n : Nat) : String := String.mk (natReprAux (n + 1) n)

/-- The ten decimal digit characters. -/
def decDigits : List Char := ['0', '1', '2', '3', '4', '5', '6', '7', '8', '9']

/-! ### JS values

`JVal.null` plays the double role of the JS `null` literal and of the miss
sentinel returned by the cache lookups (the source returns `null` in both
cases, so they are the same observable). -/

inductive JVal where
  | null
  | str (v : String)
  | num (v : Int)
  | boolean (v : Bool)
deriving DecidableEq

/-! ### Association-list model of JS `Map` -/

/-- JS `Map.prototype.get`: first (and, for maps built by `mapSet`, only)
binding of `k`. -/
def mapGet (k : String) : List (String × α) → Option α
  | [] => none
  | (k', v) :: rest => if k' = k then some v else mapGet k rest

/-- JS `Map.prototype.set`: update the existing binding in place, else append. -/
def mapSet (k : String) (v : α) : List (String × α) → List (String × α)
  | [] => [(k, v)]
  | (k', v') :: rest =>
    if k' = k then (k, v) :: rest else (k', v') :: mapSet k v rest

/-- JS `Map.prototype.delete` (maps built by `mapSet` bind each key once). -/
def mapDel (k : String) (l : List (String × α)) : List (String × α) :=
  l.filter (fun q => !(q.1 = k))

/-! ### CacheManager (`miniapp/utils/cache.js`)

Volatile tier (`memoryCache`), durable tier (`wx` storage, modelled as an
in-state map under the `cache_` namespace with failure-free I/O: read/remove
failures in the source degrade to `null`/no-op, which coincides with the
missing-key behaviour of the map), and the hit/miss/sets/deletes counters. -/

/-- A volatile-tier record (`{value, expireTime, accessCount, lastAccess}`). -/
structure MemEntry where
  value : JVal
  expireTime : Nat
  accessCount : Nat
  lastAccess : Nat
deriving DecidableEq

/-- A durable-tier record (`{value, expireTime, createTime}`). -/
structure StorEntry where
  value : JVal
  expireTime : Nat
  createTime : Nat
deriving DecidableEq

structure CacheState where
  memoryCache : List (String × MemEntry)
  storage : List (String × StorEntry)
  hits : Nat
  misses : Nat
  sets : Nat
  deletes : Nat
deriving DecidableEq

/-- `config.CACHE.MEMORY_TTL` (5 minutes, in ms). -/
def MEMORY_TTL : Nat := 5 * 60 * 1000

/-- `config.CACHE.STORAGE_TTL` (30 minutes, in ms). -/
def STORAGE_TTL : Nat := 30 * 60 * 1000

/-- `cleanExpiredMemoryCache`: drop every entry with `now > expireTime`. -/
def cleanExpiredMemoryCache (now : Nat) (l : List (String × MemEntry)) :
    List (String × MemEntry) :=
  l.filter (fun q => !(now > q.2.expireTime))

/-- `setMemory(key, value, ttl)`: insert/overwrite with `expireTime = now + ttl`,
bump the `sets` counter, then sweep all expired volatile entries. -/
def setMemory (key : String) (value : JVal) (ttl now : Nat) (s : CacheState) :
    CacheState :=
  let entry : MemEntry := ⟨value, now + ttl, 0, now⟩
  { s with
    memoryCache := cleanExpiredMemoryCache now (mapSet key entry s.memoryCache),
    sets := s.sets + 1 }

/-- `getMemory(key)`: value if present and unexpired (bumping
`accessCount`/`lastAccess` and the hit counter); otherwise evict if expired and
bump the miss counter. A miss returns `JVal.null`. -/
def getMemory (key : String) (now : Nat) (s : CacheState) : JVal × CacheState :=
  match mapGet key s.memoryCache with
  | none => (JVal.null, { s with misses := s.misses + 1 })
  | some c =>
    if now > c.expireTime then
      (JVal.null,
       { s with memoryCache := mapDel key s.memoryCache, misses := s.misses + 1 })
    else
      let c' := { c with accessCount := c.accessCount + 1, lastAccess := now }
      (c.value,
       { s with memoryCache := mapSet key c' s.memoryCache, hits := s.hits + 1 })

/-- `setStorage(key, value, ttl)`: durable-tier write of
`{value, expireTime: now+ttl, createTime: now}` (write failures are swallowed
in the source; the model is the failure-free behaviour). -/
def setStorage (key : String) (value : JVal) (ttl now : Nat) (s : CacheState) :
    CacheState :=
  { s with storage := mapSet key ⟨value, now + ttl, now⟩ s.storage }

/-- `getStorage(key)`: durable-tier read; expired records are removed and read
as `null`; a missing record reads as `null`. -/
def getStorage (key : String) (now : Nat) (s : CacheState) : JVal × CacheState :=
  match mapGet key s.storage with
  | none => (JVal.null, s)
  | some c =>
    if now > c.expireTime then
      (JVal.null, { s with storage := mapDel key s.storage })
    else
      (c.value, s)

/-- `get(key)`: volatile tier first; on miss the durable tier; a durable hit is
promoted into the volatile tier under the default memory TTL. -/
def cacheGet (key : String) (now : Nat) (s : CacheState) : JVal × CacheState :=
  let r1 := getMemory key now s
  if r1.1 ≠ JVal.null then r1
  else
    let r2 := getStorage key now r1.2
    if r2.1 ≠ JVal.null then (r2.1, setMemory key r2.1 MEMORY_TTL now r2.2)
    else r2

/-- `set(key, value, {memoryTTL, storageTTL, memoryOnly, storageOnly})`. -/
def cacheSet (key : String) (value : JVal) (memoryTTL storageTTL : Nat)
    (memoryOnly storageOnly : Bool) (now : Nat) (s : CacheState) : CacheState :=
  let s := if !storageOnly then setMemory key value memoryTTL now s else s
  if !memoryOnly then setStorage key value storageTTL now s else s

/-- `remove(key)`: delete from both tiers and bump the delete counter. -/
def cacheRemove (key : String) (s : CacheState) : CacheState :=
  { s with
    memoryCache := mapDel key s.memoryCache,
    storage := mapDel key s.storage,
    deletes := s.deletes + 1 }

/-! ### `getStats()` and IEEE-754 binary64 arithmetic

The source computes `hits / (hits + misses) * 100` in JS numbers — IEEE-754
binary64 doubles — before `toFixed(2)`, so the two arithmetic operators are
modelled as correctly rounded (round to nearest, ties to even, the IEEE and JS
default) floating-point operations, not as exact rationals.  A non-negative
double is an `FP`: significand `m` times `2^(exp - 52)` (`2^52 ≤ m < 2^53`
for normal intermediate results, `m = 0` for zero; the magnitudes arising
here, in `[0, 100]`, never overflow or go subnormal).  The counters
themselves are exactly representable as doubles while below `2^53`, which is
where the model is faithful.  ECMA `Number.prototype.toFixed(2)` renders the
integer `n` that minimises `|n / 100 - x|` over the *exact* value `x` of the
double, picking the larger `n` on ties — i.e. `n = ⌊100·x + 1/2⌋` for
non-negative `x`.  All operations are kept in integer arithmetic
(`fpHundredths`) so that concrete states evaluate; `fpValue` gives the exact
rational value of a double for the statements. -/

structure CacheStatsView where
  hits : Nat
  misses : Nat
  sets : Nat
  deletes : Nat
  hitRate : String
  memorySize : Nat
deriving DecidableEq

def pad2 (n : Nat) : String := if n < 10 then "0" ++ natRepr n else natRepr n

/-- Render a hundredths count `n` as the fixed-point numeral `n/100 . n%100`. -/
def fmtHundredths (n : Nat) : String := natRepr (n / 100) ++ "." ++ pad2 (n % 100)

/-- ECMA `toFixed(2)` on the exact (rational) value of a non-negative
number. -/
def toFixed2 (x : ℚ) : String := fmtHundredths (⌊x * 100 + 1 / 2⌋).toNat

def bitLenAux : Nat → Nat → Nat
  | 0, _ => 0
  | fuel + 1, n => if n = 0 then 0 else bitLenAux fuel (n / 2) + 1

/-- Number of binary digits of `n` (`⌊log2 n⌋ + 1` for `n > 0`, else `0`);
fuel-based so it is structurally recursive, `fuel = n + 1` always suffices. -/
def bitLen (n : Nat) : Nat := bitLenAux (n + 1) n

/-- Round the rational `a / b` (`b ≠ 0`) to the nearest integer, ties to
even — the rounding applied to an infinitely precise result by IEEE-754
operations in the default mode. -/
def rndHalfEvenDiv (a b : Nat) : Nat :=
  if 2 * (a % b) < b then a / b
  else if b < 2 * (a % b) then a / b + 1
  else if (a / b) % 2 = 0 then a / b else a / b + 1

/-- A non-negative binary64 value `m * 2^(exp - 52)`. -/
structure FP where
  m : Nat
  exp : Int
deriving DecidableEq

/-- The exact rational value of the double `x`. -/
def fpValue (x : FP) : ℚ := (x.m : ℚ) * 2 ^ (x.exp - 52)

/-- The normalization shift for `flDiv h t`: the `s` with
`t·2^52 ≤ h·2^s < t·2^53`, i.e. `(h/t)·2^s ∈ [2^52, 2^53)`, for
`0 < h ≤ t`. -/
def flDivShift (h t : Nat) : Nat :=
  if t * 2 ^ 52 ≤ h * 2 ^ (52 + bitLen t - bitLen h) then 52 + bitLen t - bitLen h
  else 52 + bitLen t - bitLen h + 1

/-- Correctly rounded binary64 division `h / t` of two exactly-represented
naturals, for the range `0 < h ≤ t` arising from `hits / (hits + misses)`;
`h = 0` gives zero. -/
def flDiv (h t : Nat) : FP :=
  if h = 0 then ⟨0, 0⟩
  else ⟨rndHalfEvenDiv (h * 2 ^ flDivShift h t) t, 52 - (flDivShift h t : Int)⟩

/-- Correctly rounded binary64 multiplication `x * 100`: the exact integer
product of significands, renormalized to 53 bits with ties-to-even. -/
def flMul100 (x : FP) : FP :=
  if x.m = 0 then ⟨0, 0⟩
  else
    let p := x.m * 100
    let d := bitLen p - 53
    ⟨rndHalfEvenDiv p (2 ^ d), x.exp + d⟩

/-- `⌊v·100 + 1/2⌋` for the exact value `v = m·2^(exp-52)` of the double `x`
— the hundredths integer that ECMA `toFixed(2)` renders — computed in integer
arithmetic. -/
def fpHundredths (x : FP) : Nat :=
  if 52 ≤ x.exp then x.m * 100 * 2 ^ (x.exp - 52).toNat
  else (2 * (x.m * 100) + 2 ^ (52 - x.exp).toNat) / 2 ^ ((52 - x.exp).toNat + 1)

/-- `toFixed(2)` of the double `x`. -/
def fpToFixed2 (x : FP) : String := fmtHundredths (fpHundredths x)

/-- `getStats()`: counters plus
`hitRate = (hits / (hits + misses) * 100).toFixed(2) + '%'` — with the
division and multiplication performed in binary64 — when there was at least
one lookup, `'0%'` otherwise, plus the volatile-tier entry count. -/
def getStats (s : CacheState) : CacheStatsView :=
  let total := s.hits + s.misses
  let hitRate : String :=
    if 0 < total then fpToFixed2 (flMul100 (flDiv s.hits total)) else "0"
  ⟨s.hits, s.misses, s.sets, s.deletes, hitRate ++ "%", s.memoryCache.length⟩

/-! ### `generateKey` / `hashCode` (`cache.js` lines 26–44)

`JSON.stringify(params, Object.keys(params).sort())` serializes a flat
parameter object with its keys in sorted order; the claims quantify over flat
objects, modelled as association lists of `JVal` leaves.  Strings are compared
by the Unicode order of their characters (the JS sort compares UTF-16 code
units; on the BMP strings appearing here the two orders coincide, as does
`charCodeAt` with the code point). -/

def hexDigitCh (n : Nat) : Char :=
  if n < 10 then Char.ofNat (48 + n) else Char.ofNat (87 + n)

/-- ECMA `QuoteJSONString` escaping of one character. -/
def escChar (c : Char) : List Char :=
  if c = '"' then ['\\', '"']
  else if c = '\\' then ['\\', '\\']
  else if c.toNat = 8 then ['\\', 'b']
  else if c.toNat = 9 then ['\\', 't']
  else if c.toNat = 10 then ['\\', 'n']
  else if c.toNat = 12 then ['\\', 'f']
  else if c.toNat = 13 then ['\\', 'r']
  else if c.toNat < 32 then
    ['\\', 'u', '0', '0', hexDigitCh (c.toNat / 16), hexDigitCh (c.toNat % 16)]
  else [c]

def quoteJson (s : String) : String :=
  String.mk ('"' :: s.data.foldr (fun c acc => escChar c ++ acc) ['"'])

def intRepr (i : Int) : String :=
  if i < 0 then "-" ++ natRepr i.natAbs else natRepr i.natAbs

/-- JSON serialization of a leaf value. -/
def jsonLit : JVal → String
  | .null => "null"
  | .str v => quoteJson v
  | .num v => intRepr v
  | .boolean true => "true"
  | .boolean false => "false"

def pairJson (p : String × JVal) : String := quoteJson p.1 ++ ":" ++ jsonLit p.2

/-- Key order used by `Object.keys(params).sort()`. -/
def pairLe (a b : String × JVal) : Prop := a.1 ≤ b.1

def pairKeyLt (a b : String × JVal) : Prop := a.1 < b.1

instance : DecidableRel pairLe := fun a b => inferInstanceAs (Decidable (a.1 ≤ b.1))

instance : DecidableRel pairKeyLt := fun a b => inferInstanceAs (Decidable (a.1 < b.1))

instance : IsTotal (String × JVal) pairLe := ⟨fun a b => le_total a.1 b.1⟩

instance : IsTrans (String × JVal) pairLe := ⟨fun _ _ _ h1 h2 => le_trans h1 h2⟩

instance : IsAntisymm (String × JVal) pairKeyLt :=
  ⟨fun _ _ h1 h2 => absurd h1 (lt_asymm h2)⟩

def sortPairs (params : List (String × JVal)) : List (String × JVal) :=
  List.insertionSort pairLe params

/-- `JSON.stringify(params, Object.keys(params).sort())`: the key-sorted
serialization of the flat object `params`. -/
def canonJson (params : List (String × JVal)) : String :=
  "\x7b" ++ String.intercalate "," ((sortPairs params).map pairJson) ++ "\x7d"

/-- JS `ToInt32`: wrap an exact integer to `[-2^31, 2^31)`. -/
def toInt32 (z : Int) : Int :=
  if z % 4294967296 < 2147483648 then z % 4294967296
  else z % 4294967296 - 4294967296

/-- One step of `hashCode`'s loop as written:
`hash = ((hash << 5) - hash) + char; hash = hash & hash`.  The shift wraps its
result to 32 bits, the following subtraction and addition are exact JS number
arithmetic, and `hash & hash` wraps the sum back to 32 bits. -/
def jsHashStep (h : Int) (c : Char) : Int :=
  toInt32 (toInt32 (h * 32) - h + c.toNat)

/-- The specification-level step `hash = hash * 31 + charCode`, wrapped. -/
def specHashStep (h : Int) (c : Char) : Int :=
  toInt32 (h * 31 + c.toNat)

/-- Base-36 digits (`0-9` then `a-z`), as in JS `Number.prototype.toString(36)`. -/
def digit36 (d : Nat) : Char :=
  if d < 10 then Char.ofNat (48 + d) else Char.ofNat (87 + d)

def nat36Aux : Nat → Nat → List Char
  | 0, _ => []
  | fuel + 1, n =>
    if n < 36 then [digit36 n]
    else nat36Aux fuel (n / 36) ++ [digit36 (n % 36)]

def natBase36 (n : Nat) : String := String.mk (nat36Aux (n + 1) n)

/-- `hashCode(str)`: 32-bit rolling hash, absolute value, base-36. -/
def hashCode (str : String) : String :=
  natBase36 (str.data.foldl jsHashStep 0).natAbs

/-- `generateKey(prefix, params)`. -/
def generateKey (pre : String) (params : List (String × JVal)) : String :=
  pre ++ "_" ++ hashCode (canonJson params)

/-! ### RequestManager (`miniapp/utils/config.js` bundle)

`executeRequest` produces exactly two error shapes: a non-2xx completion
yields `new Error("HTTP " + statusCode + ": " + res.errMsg)` carrying
`statusCode`, and a transport failure yields
`new Error(err.errMsg || '网络请求失败')` with no `statusCode` (the WeChat
transport reports transport failures with an `errMsg` beginning
`"request:fail"`).  The transport itself is abstracted as a function from the
attempt index to an outcome. -/

structure ReqError where
  message : String
  statusCode : Option Nat
deriving DecidableEq

/-- Error built in the `success` callback for a non-2xx status. -/
def httpError (status : Nat) (errMsg : String) : ReqError :=
  ⟨"HTTP " ++ natRepr status ++ ": " ++ errMsg, some status⟩

/-- Error built in the `fail` callback (`err.errMsg || '网络请求失败'`). -/
def networkError (errMsg : String) : ReqError :=
  ⟨if errMsg = "" then "网络请求失败" else errMsg, none⟩

/-- `isRetryableError`: message mentions timeout/network/fail, or 5xx status
(`error.statusCode >= 500` is false when `statusCode` is `undefined`). -/
def isRetryableError (e : ReqError) : Bool :=
  strIncludes e.message "timeout" || strIncludes e.message "network" ||
  strIncludes e.message "fail" ||
  (match e.statusCode with
   | some s => decide (500 ≤ s)
   | none => false)

/-- Observable outcome of one `requestWithRetry` run: how many attempts of the
underlying `request` were made, the backoff delays awaited (in order), and the
final result. -/
structure RetryResult (α : Type) where
  attempts : Nat
  delays : List Nat
  outcome : Except ReqError α

/-- The body of `requestWithRetry`'s `for (attempt = 0; attempt <= maxRetries)`
loop, at attempt index `a` with `remaining = maxRetries - a` further attempts
allowed.  Before each retry (`a > 0`) it waits
`RETRY_DELAY_BASE * 2 ^ (a - 1)`; a failure ends the loop when the attempt
budget is exhausted or `isRetryableError` rejects it. -/
def rwrGo (tr : Nat → Except ReqError α) (base : Nat) : Nat → Nat → RetryResult α
  | a, rem =>
    let ds : List Nat := if a = 0 then [] else [base * 2 ^ (a - 1)]
    match tr a with
    | .ok r => ⟨1, ds, .ok r⟩
    | .error e =>
      match rem with
      | 0 => ⟨1, ds, .error e⟩
      | rem' + 1 =>
        if isRetryableError e then
          let rest := rwrGo tr base (a + 1) rem'
          ⟨rest.attempts + 1, ds ++ rest.delays, rest.outcome⟩
        else ⟨1, ds, .error e⟩

/-- `requestWithRetry(options, maxRetries)` against the abstract transport
`tr`, with `base = config.PERFORMANCE.RETRY_DELAY_BASE`. -/
def requestWithRetry (tr : Nat → Except ReqError α) (base maxRetries : Nat) :
    RetryResult α :=
  rwrGo tr base 0 maxRetries

/-! ### Mock mode (`request` + `getMockData`) -/

structure ReqOptions where
  url : String
  dataStyle : Option String
deriving DecidableEq

inductive MockBody where
  | styles
  | spots
  | guide (text : String) (audioUrl : String)
  | generic
deriving DecidableEq

structure MockResp where
  statusCode : Nat
  body : MockBody
deriving DecidableEq

/-- `getMockData(options)`: fixture responder keyed by URL-substring match, in
source order; unmatched URLs get the generic success envelope. -/
def getMockData (o : ReqOptions) : MockResp :=
  if strIncludes o.url "/guide/styles" then ⟨200, .styles⟩
  else if strIncludes o.url "/spots/nearby" then ⟨200, .spots⟩
  else if strIncludes o.url "/guide" then
    ⟨200, .guide ("这是" ++ (o.dataStyle.getD "默认") ++ "风格的模拟讲解内容。在实际项目中，这里会是AI生成的真实讲解内容。")
        "https://example.com/mock-audio.mp3"⟩
  else ⟨200, .generic⟩

/-- Pending-request registry state of `RequestManager`. -/
structure RMState where
  requestCount : Nat
  pendingRequests : List Nat
deriving DecidableEq

/-- `request(options)` on the mock-mode path (`USE_MOCK_DATA` enabled): a
request id is allocated, and `getMockData` resolves before `executeRequest`
(where the pending registry is touched) is ever reached. -/
def requestMock (o : ReqOptions) (st : RMState) : Except ReqError MockResp × RMState :=
  (Except.ok (getMockData o), { st with requestCount := st.requestCount + 1 })

/-! ### AudioManager (`cache.js` bundle, audio half)

The platform media session (`wx.createInnerAudioContext`) is modelled inside
the state: `ctxActive` (a context exists), `ctxSrc` (its `src` property), the
set of still-attached `waitForCanplay` listener groups (`pendingWaits`, one
record per outstanding wait, in attachment order, carrying the suspended
`play` invocation's url/title/`maxRetries`), and a trace of platform commands
(`cmds`).  `wx.InnerAudioContext` has no `readyState` property, so
`this.context.readyState >= 3` is always false and `waitForCanplay` always
suspends.  `fireCanplay`/`fireWaitTimeout` model the platform emitting a
`canplay` event resp. one wait's load-timeout guard firing; each settling path
of `waitForCanplay` first detaches that wait's listeners, then resumes the
suspended `play`: the `canplay` path issues `this.context.play()` against the
*current* `src`, the timeout path enters `play`'s catch, which (with
`autoRetry` and budget left) re-invokes `play(audioUrl, maxRetries-1)`. -/

structure AudioSession where
  url : String
  title : String
  startTime : Nat
deriving DecidableEq

structure WaitRec where
  wid : Nat
  url : String
  title : String
  retries : Nat
deriving DecidableEq

inductive AudioCmd where
  | playC (src : String)
  | pauseC
  | seekC (time : Nat)
deriving DecidableEq

structure AudioState where
  ctxActive : Bool
  ctxSrc : Option String
  isPlaying : Bool
  currentAudio : Option AudioSession
  playbackHistory : List AudioSession
  pendingWaits : List WaitRec
  nextWid : Nat
  cmds : List AudioCmd
  warnings : Nat
deriving DecidableEq

/-- `init()`: create the platform context (idempotent; the `src` of a fresh
context is empty). -/
def audioInit (s : AudioState) : AudioState :=
  if s.ctxActive then s else { s with ctxActive := true, ctxSrc := none }

/-- `play(audioUrl, {title, maxRetries})` up to its suspension inside
`waitForCanplay`: initialize the context if absent, switch the source and
start a new session when the url differs, then attach this wait's
canplay/error/waiting listeners. -/
def audioPlay (url title : String) (retries now : Nat) (s : AudioState) :
    AudioState :=
  let s := audioInit s
  let s :=
    if s.ctxSrc = some url then s
    else { s with ctxSrc := some url, currentAudio := some ⟨url, title, now⟩ }
  { s with
    pendingWaits := s.pendingWaits ++ [⟨s.nextWid, url, title, retries⟩],
    nextWid := s.nextWid + 1 }

/-- `pause()`: warn-and-return without a context, else issue the platform
pause command. -/
def audioPause (s : AudioState) : AudioState :=
  if s.ctxActive then { s with cmds := s.cmds ++ [AudioCmd.pauseC] }
  else { s with warnings := s.warnings + 1 }

/-- `seek(time)`: warn-and-return without a context, else issue the platform
seek command. -/
def audioSeek (time : Nat) (s : AudioState) : AudioState :=
  if s.ctxActive then { s with cmds := s.cmds ++ [AudioCmd.seekC time] }
  else { s with warnings := s.warnings + 1 }

/-- `destroy()`: stop and release the platform session (its listeners die with
it) and null out `context`/`isPlaying`/`currentAudio`/callback; the playback
history is left as is. -/
def audioDestroy (s : AudioState) : AudioState :=
  { s with
    ctxActive := false,
    ctxSrc := none,
    isPlaying := false,
    currentAudio := none,
    pendingWaits := [] }

/-- The platform emits `canplay`: every attached `onCanplay` listener runs in
attachment order; each detaches its wait's listeners and resolves, and the
resumed `play` issues `this.context.play()` against the current `src`. -/
def fireCanplay (s : AudioState) : AudioState :=
  let waits := s.pendingWaits
  let s0 := { s with pendingWaits := [] }
  waits.foldl
    (fun st _ =>
      { st with
        cmds := st.cmds ++ [AudioCmd.playC (st.ctxSrc.getD "")],
        isPlaying := true })
    s0

/-- The 15 s load-timeout guard of the wait `wid` fires: it detaches that
wait's listeners and rejects, so the suspended `play` takes its catch path;
with `autoRetry` (the default) and retries remaining it re-invokes
`play(audioUrl, {maxRetries: maxRetries-1})` after the fixed 1 s delay,
otherwise the error surfaces to the caller. -/
def fireWaitTimeout (wid now : Nat) (s : AudioState) : AudioState :=
  match s.pendingWaits.find? (fun w => w.wid == wid) with
  | none => s
  | some w =>
    let s := { s with pendingWaits := s.pendingWaits.filter (fun w2 => w2.wid != wid) }
    if 0 < w.retries then audioPlay w.url w.title (w.retries - 1) now s
    else s

/-- The concrete C1 transport: HTTP 503 on attempts 0 and 1, success after. -/
def tr503 (resp : α) : Nat → Except ReqError α :=
  fun a => if a < 2 then Except.error (httpError 503 "request:ok") else Except.ok resp

/-- An initialized, idle audio manager (right after `init()`). -/
def audioIdle : AudioState :=
  ⟨true, none, false, none, [], [], 0, [], 0⟩

/-- `play("a")` immediately followed by `play("b")`, both still waiting for
`canplay`. -/
def audioAB : AudioState :=
  audioPlay "b" "tb" 3 20 (audioPlay "a" "ta" 3 10 audioIdle)

theorem leadsWith_subset {pat l : List Char} (h : leadsWith pat l = true) :
    ∀ c ∈ pat, c ∈ l := by
  induction pat generalizing l with
  | nil => intro c hc; cases hc
  | cons p ps ih =>
    cases l with
    | nil => simp [leadsWith] at h
    | cons x xs =>
      simp only [leadsWith, Bool.and_eq_true, beq_iff_eq] at h
      intro c hc
      rcases hc with _ | hc
      · exact h.1 ▸ List.mem_cons_self _ _
      · exact List.mem_cons_of_mem _ (ih h.2 c (by assumption))

theorem hasSub_subset {pat l : List Char} (h : hasSub pat l = true) :
    ∀ c ∈ pat, c ∈ l := by
  induction l with
  | nil =>
    intro c hc
    simp only [hasSub] at h
    cases pat with
    | nil => cases hc
    | cons p ps => simp [leadsWith] at h
  | cons x xs ih =>
    simp only [hasSub, Bool.or_eq_true] at h
    intro c hc
    rcases h with h | h
    · exact leadsWith_subset h c hc
    · exact List.mem_cons_of_mem _ (ih h c hc)

theorem leadsWith_append {pat l l2 : List Char} (h : leadsWith pat l = true) :
    leadsWith pat (l ++ l2) = true := by
  induction pat generalizing l with
  | nil => simp [leadsWith]
  | cons p ps ih =>
    cases l with
    | nil => simp [leadsWith] at h
    | cons x xs =>
      simp only [leadsWith, Bool.and_eq_true, beq_iff_eq] at h ⊢
      exact ⟨h.1, ih h.2⟩

theorem hasSub_append_left {pat l l2 : List Char} (h : hasSub pat l = true) :
    hasSub pat (l ++ l2) = true := by
  induction l with
  | nil =>
    simp only [hasSub] at h
    cases pat with
    | nil =>
      cases l2 with
      | nil => simp [hasSub, leadsWith]
      | cons y ys => simp [hasSub, leadsWith]
    | cons p ps => simp [leadsWith] at h
  | cons x xs ih =>
    simp only [hasSub, Bool.or_eq_true] at h ⊢
    rcases h with h | h
    · exact Or.inl (leadsWith_append h)
    · exact Or.inr (ih h)

theorem string_data_append (a b : String) : (a ++ b).data = a.data ++ b.data := by
  cases a; cases b; rfl

theorem digitChar_mem_decDigits {d : Nat} (hd : d < 10) : digitChar d ∈ decDigits := by
  interval_cases d <;> decide

theorem natReprAux_digits :
    ∀ fuel n, ∀ c ∈ natReprAux fuel n, c ∈ decDigits := by
  intro fuel
  induction fuel with
  | zero => intro n c hc; cases hc
  | succ f ih =>
    intro n c hc
    simp only [natReprAux] at hc
    split at hc
    · next h =>
      rw [List.mem_singleton] at hc
      exact hc ▸ digitChar_mem_decDigits h
    · rcases List.mem_append.1 hc with hc | hc
      · exact ih _ c hc
      · rw [List.mem_singleton] at hc
        exact hc ▸ digitChar_mem_decDigits (Nat.mod_lt _ (by omega))

theorem natRepr_digits (n : Nat) : ∀ c ∈ (natRepr n).data, c ∈ decDigits :=
  natReprAux_digits (n + 1) n

theorem mapGet_mapSet_filter_self {k : String} {e : α} {p : String × α → Bool}
    (l : List (String × α)) (hp : p (k, e) = true) :
    mapGet k ((mapSet k e l).filter p) = some e := by
  induction l with
  | nil => simp [mapSet, mapGet, hp]
  | cons q rest ih =>
    obtain ⟨k', v'⟩ := q
    by_cases hk : k' = k
    · subst hk
      simp [mapSet, List.filter, hp, mapGet]
    · simp only [mapSet, if_neg hk, List.filter]
      cases hpv : p (k', v') with
      | true => simpa [mapGet, hk] using ih
      | false => exact ih

theorem mapGet_mapSet_self {k : String} {e : α} (l : List (String × α)) :
    mapGet k (mapSet k e l) = some e := by
  induction l with
  | nil => simp [mapSet, mapGet]
  | cons q rest ih =>
    obtain ⟨k', v'⟩ := q
    by_cases hk : k' = k
    · subst hk; simp [mapSet, mapGet]
    · simpa [mapSet, if_neg hk, mapGet, hk] using ih

theorem mapGet_mapDel_self {k : String} (l : List (String × α)) :
    mapGet k (mapDel k l) = none := by
  induction l with
  | nil => rfl
  | cons q rest ih =>
    obtain ⟨k', v'⟩ := q
    by_cases hk : k' = k
    · simpa [mapDel, List.filter, hk] using ih
    · simpa [mapDel, List.filter, hk, mapGet] using ih

theorem toFixed2_rate_eq_counter_formula (h t : Nat) (ht : 0 < t) :
    toFixed2 ((h : ℚ) / (t : ℚ) * 100) = fmtHundredths ((20000 * h + t) / (2 * t)) := by
  unfold toFixed2
  have ht' : (t : ℚ) ≠ 0 := Nat.cast_ne_zero.2 (by omega)
  have h2t : ((2 * t : ℕ) : ℚ) ≠ 0 := Nat.cast_ne_zero.2 (by omega)
  have harg : (h : ℚ) / (t : ℚ) * 100 * 100 + 1 / 2
      = ((20000 * h + t : ℕ) : ℤ) / ((2 * t : ℕ) : ℚ) := by
    push_cast
    field_simp
    ring
  rw [harg, Rat.floor_intCast_div_natCast]
  have : ((20000 * h + t : ℕ) : ℤ) / ((2 * t : ℕ) : ℤ)
      = (((20000 * h + t) / (2 * t) : ℕ) : ℤ) := (Int.ofNat_tdiv _ _).symm
  rw [this, Int.toNat_natCast]

theorem toInt32_congr {a b : Int} (h : a % 4294967296 = b % 4294967296) :
    toInt32 a = toInt32 b := by
  unfold toInt32
  rw [h]

theorem jsHashStep_eq_specHashStep : jsHashStep = specHashStep := by
  funext h c
  unfold jsHashStep specHashStep
  apply toInt32_congr
  unfold toInt32
  split <;> omega

theorem pairwise_keyLt_of_le_ne {l : List (String × JVal)}
    (hle : l.Pairwise pairLe) (hne : l.Pairwise (fun a b => a.1 ≠ b.1)) :
    l.Pairwise pairKeyLt := by
  induction l with
  | nil => exact List.Pairwise.nil
  | cons a t ih =>
    rcases List.pairwise_cons.1 hle with ⟨h1, h2⟩
    rcases List.pairwise_cons.1 hne with ⟨h3, h4⟩
    exact List.pairwise_cons.2
      ⟨fun b hb => lt_of_le_of_ne (h1 b hb) (h3 b hb), ih h2 h4⟩

theorem sortPairs_eq_of_perm {p1 p2 : List (String × JVal)} (hp : p1.Perm p2)
    (hnd : p1.Pairwise (fun a b => a.1 ≠ b.1)) : sortPairs p1 = sortPairs p2 := by
  have hperm : (sortPairs p1).Perm (sortPairs p2) :=
    ((List.perm_insertionSort pairLe p1).trans hp).trans
      (List.perm_insertionSort pairLe p2).symm
  have hsymm : ∀ {a b : String × JVal}, a.1 ≠ b.1 → b.1 ≠ a.1 :=
    fun h => h.symm
  have hnd1 : (sortPairs p1).Pairwise (fun a b => a.1 ≠ b.1) :=
    ((List.perm_insertionSort pairLe p1).pairwise_iff hsymm).2 hnd
  have hnd2 : (sortPairs p2).Pairwise (fun a b => a.1 ≠ b.1) :=
    ((List.perm_insertionSort pairLe p2).pairwise_iff hsymm).2
      ((hp.pairwise_iff hsymm).1 hnd)
  have hs1 : (sortPairs p1).Pairwise pairLe := List.sorted_insertionSort pairLe p1
  have hs2 : (sortPairs p2).Pairwise pairLe := List.sorted_insertionSort pairLe p2
  exact List.eq_of_perm_of_sorted hperm
    (pairwise_keyLt_of_le_ne hs1 hnd1) (pairwise_keyLt_of_le_ne hs2 hnd2)

/-! ### Request-pipeline lemmas -/

theorem rwrGo_attempts_le (tr : Nat → Except ReqError α) (base : Nat) :
    ∀ rem a, (rwrGo tr base a rem).attempts ≤ rem + 1 := by
  intro rem
  induction rem with
  | zero =>
    intro a
    rw [rwrGo]
    cases htr : tr a with
    | ok r => simp
    | error e => simp
  | succ rem' ih =>
    intro a
    rw [rwrGo]
    cases htr : tr a with
    | ok r => simp
    | error e =>
      by_cases hre : isRetryableError e
      · have := ih (a + 1)
        simp only [hre, if_true]
        omega
      · simp [hre]

theorem rwrGo_delays_of_pos (tr : Nat → Except ReqError α) (base : Nat) :
    ∀ rem a, 1 ≤ a →
      (rwrGo tr base a rem).delays
        = (List.range (rwrGo tr base a rem).attempts).map
            (fun k => base * 2 ^ (a - 1 + k)) := by
  intro rem
  induction rem with
  | zero =>
    intro a ha
    rw [rwrGo]
    cases htr : tr a with
    | ok r => simp [Nat.pos_iff_ne_zero.1 ha, List.range_succ]
    | error e => simp [Nat.pos_iff_ne_zero.1 ha, List.range_succ]
  | succ rem' ih =>
    intro a ha
    rw [rwrGo]
    cases htr : tr a with
    | ok r => simp [Nat.pos_iff_ne_zero.1 ha, List.range_succ]
    | error e =>
      by_cases hre : isRetryableError e
      · simp only [hre, if_true, Nat.pos_iff_ne_zero.1 ha, if_neg]
        rw [ih (a + 1) (by omega)]
        rw [List.range_succ_eq_map, List.map_cons, List.map_map]
        simp only [Nat.add_zero, if_false, List.cons_append, List.nil_append,
          List.singleton_append]
        congr 1
        apply List.map_congr_left
        intro k _
        simp only [Function.comp_apply]
        congr 2
        omega
      · simp [Nat.pos_iff_ne_zero.1 ha, hre, List.range_succ]

theorem requestWithRetry_delay_schedule (tr : Nat → Except ReqError α)
    (base maxRetries : Nat) :
    (requestWithRetry tr base maxRetries).delays
      = (List.range ((requestWithRetry tr base maxRetries).attempts - 1)).map
          (fun k => base * 2 ^ k) := by
  unfold requestWithRetry
  rw [rwrGo]
  cases htr : tr 0 with
  | ok r => simp
  | error e =>
    cases maxRetries with
    | zero => simp
    | succ rem' =>
      by_cases hre : isRetryableError e
      · simp only [hre, if_true, if_pos rfl]
        rw [rwrGo_delays_of_pos tr base rem' 1 (by omega)]
        simp
      · simp [hre]

theorem err503_retryable : isRetryableError (httpError 503 "request:ok") = true := by
  decide

theorem err404_not_retryable : isRetryableError (httpError 404 "request:ok") = false := by
  decide

/-- C1: `requestWithRetry(options, maxRetries)` makes at most `maxRetries + 1`
attempts of the underlying request, with no delay before the first attempt and
a delay of `baseDelay * 2 ^ (attempt - 1)` before retry number `attempt`
(i.e. the delay trace is `[base*2^0, base*2^1, …]`, one entry per retry); with
`maxRetries = 2` against a transport failing twice with HTTP 503 and then
succeeding, it returns the success result after exactly two delayed retries
with delays `baseDelay * 1` and `baseDelay * 2`. -/
theorem c1_requestWithRetry_backoff :
    (∀ (α : Type) (tr : Nat → Except ReqError α) (base maxRetries : Nat),
        (requestWithRetry tr base maxRetries).attempts ≤ maxRetries + 1 ∧
        (requestWithRetry tr base maxRetries).delays
          = (List.range ((requestWithRetry tr base maxRetries).attempts - 1)).map
              (fun k => base * 2 ^ k)) ∧
    (∀ (α : Type) (resp : α) (base : Nat),
        requestWithRetry (tr503 resp) base 2
          = ⟨3, [base * 1, base * 2], Except.ok resp⟩) := by
  constructor
  · intro α tr base maxRetries
    exact ⟨rwrGo_attempts_le tr base maxRetries 0,
      requestWithRetry_delay_schedule tr base maxRetries⟩
  · intro α resp base
    unfold requestWithRetry
    rw [rwrGo]
    simp only [tr503, if_pos (by omega : (0:Nat) < 2), err503_retryable, if_true]
    rw [rwrGo]
    simp only [tr503, if_pos (by omega : (1:Nat) < 2), err503_retryable, if_true]
    rw [rwrGo]
    simp only [tr503]
    norm_num

theorem strIncludes_false_of_missing_char {s pat : String} {c : Char}
    (hc : c ∈ pat.data) (hs : c ∉ s.data) : strIncludes s pat = false := by
  cases h : strIncludes s pat with
  | false => rfl
  | true => exact absurd (hasSub_subset h c hc) hs

theorem httpError_message_data (status : Nat) (errMsg : String) :
    (httpError status errMsg).message.data
      = ("HTTP ").data ++ (natRepr status).data ++ (": ").data ++ errMsg.data := by
  simp [httpError, string_data_append]

theorem not_mem_httpError_requestOk_data {c : Char} (status : Nat)
    (h1 : c ∉ ("HTTP ").data) (h2 : c ∉ (": ").data)
    (h3 : c ∉ ("request:ok").data) (h4 : c ∉ decDigits) :
    c ∉ (httpError status "request:ok").message.data := by
  rw [httpError_message_data]
  intro hmem
  simp only [List.mem_append] at hmem
  rcases hmem with ((hA | hB) | hC) | hD
  · exact h1 hA
  · exact h4 (natRepr_digits status c hB)
  · exact h2 hC
  · exact h3 hD

theorem string_append_ne_empty_of_ne (a b : String) (h : a.data ≠ []) :
    a ++ b ≠ "" := by
  intro hab
  have := congrArg String.data hab
  rw [string_data_append] at this
  exact h (List.append_eq_nil.1 this).1

/-- C2: a failed attempt is retried iff the failure is network/timeout-class
(a transport failure, whose WeChat `errMsg` begins `"request:fail"`) or
carries an HTTP status ≥ 500; an HTTP failure below 500 whose `errMsg` is the
success-callback `"request:ok"` is terminal, so against an endpoint failing
once with HTTP 404 `requestWithRetry` makes exactly one attempt and re-raises
the error with no retry and no delay, for every retry budget. -/
theorem c2_retryability_classification :
    (∀ status : Nat,
        isRetryableError (httpError status "request:ok") = true ↔ 500 ≤ status) ∧
    (∀ suffix : String,
        isRetryableError (networkError ("request:fail" ++ suffix)) = true) ∧
    (∀ (α : Type) (base maxRetries : Nat),
        requestWithRetry
            (fun _ => (Except.error (httpError 404 "request:ok") : Except ReqError α))
            base maxRetries
          = ⟨1, [], Except.error (httpError 404 "request:ok")⟩) := by
  refine ⟨?_, ?_, ?_⟩
  · intro status
    have ht : strIncludes (httpError status "request:ok").message "timeout" = false :=
      strIncludes_false_of_missing_char (c := 'm') (by decide)
        (not_mem_httpError_requestOk_data status (by decide) (by decide) (by decide)
          (by decide))
    have hn : strIncludes (httpError status "request:ok").message "network" = false :=
      strIncludes_false_of_missing_char (c := 'w') (by decide)
        (not_mem_httpError_requestOk_data status (by decide) (by decide) (by decide)
          (by decide))
    have hf : strIncludes (httpError status "request:ok").message "fail" = false :=
      strIncludes_false_of_missing_char (c := 'f') (by decide)
        (not_mem_httpError_requestOk_data status (by decide) (by decide) (by decide)
          (by decide))
    unfold isRetryableError
    rw [ht, hn, hf]
    simp [httpError]
  · intro suffix
    have hne : ("request:fail" ++ suffix) ≠ "" :=
      string_append_ne_empty_of_ne _ _ (by decide)
    have hmsg : (networkError ("request:fail" ++ suffix)).message
        = "request:fail" ++ suffix := by
      simp [networkError, hne]
    have hfail : strIncludes (networkError ("request:fail" ++ suffix)).message "fail"
        = true := by
      rw [hmsg]
      unfold strIncludes
      rw [string_data_append]
      exact hasSub_append_left (by decide)
    simp [isRetryableError, hfail]
  · intro α base maxRetries
    unfold requestWithRetry
    cases maxRetries with
    | zero =>
      rw [rwrGo]
      simp
    | succ rem' =>
      rw [rwrGo]
      simp [err404_not_retryable]

/-- C2 witness: at HTTP 503 the classifier accepts, at a transport failure it
accepts, and the 404 run makes exactly one attempt. -/
theorem c2_retryability_classification_witness :
    (500 ≤ 503 ∧ isRetryableError (httpError 503 "request:ok") = true) ∧
    isRetryableError (networkError ("request:fail" ++ " timeout")) = true ∧
    requestWithRetry
        (fun _ => (Except.error (httpError 404 "request:ok") : Except ReqError Nat))
        500 3
      = ⟨1, [], Except.error (httpError 404 "request:ok")⟩ :=
  ⟨⟨by omega, (c2_retryability_classification.1 503).2 (by omega)⟩,
   c2_retryability_classification.2.1 " timeout",
   c2_retryability_classification.2.2 Nat 500 3⟩

/-- C10: with mock mode enabled, `request(options)` always resolves (never
rejects) with `statusCode = 200` for every URL, choosing the canned payload by
the first matching endpoint substring in source order (`/guide/styles`, then
`/spots/nearby`, then `/guide`) and a generic success envelope otherwise, and
it never touches the pending-request registry, so `getPendingRequestCount()`
is unchanged. -/
theorem c10_mock_mode_request :
    ∀ (o : ReqOptions) (st : RMState),
      (requestMock o st).1 = Except.ok (getMockData o) ∧
      (getMockData o).statusCode = 200 ∧
      (requestMock o st).2.pendingRequests = st.pendingRequests ∧
      (strIncludes o.url "/guide/styles" = true →
        (getMockData o).body = MockBody.styles) ∧
      (strIncludes o.url "/guide/styles" = false →
        strIncludes o.url "/spots/nearby" = true →
        (getMockData o).body = MockBody.spots) ∧
      (strIncludes o.url "/guide/styles" = false →
        strIncludes o.url "/spots/nearby" = false →
        strIncludes o.url "/guide" = true →
        (getMockData o).body
          = MockBody.guide
              ("这是" ++ (o.dataStyle.getD "默认") ++ "风格的模拟讲解内容。在实际项目中，这里会是AI生成的真实讲解内容。")
              "https://example.com/mock-audio.mp3") ∧
      (strIncludes o.url "/guide/styles" = false →
        strIncludes o.url "/spots/nearby" = false →
        strIncludes o.url "/guide" = false →
        (getMockData o).body = MockBody.generic) := by
  intro o st
  refine ⟨rfl, ?_, rfl, ?_, ?_, ?_, ?_⟩
  · unfold getMockData
    split_ifs <;> rfl
  · intro h1
    simp [getMockData, h1]
  · intro h1 h2
    simp [getMockData, h1, h2]
  · intro h1 h2 h3
    simp [getMockData, h1, h2, h3]
  · intro h1 h2 h3
    simp [getMockData, h1, h2, h3]

/-- C10 witness: a `/guide` URL (which also does not match the two earlier
fixtures) gets the guide payload with the default style, and the pending
registry is untouched. -/
theorem c10_mock_mode_request_witness :
    (getMockData ⟨"http://localhost:5001/guide", none⟩).body
      = MockBody.guide "这是默认风格的模拟讲解内容。在实际项目中，这里会是AI生成的真实讲解内容。"
          "https://example.com/mock-audio.mp3" ∧
    (requestMock ⟨"http://localhost:5001/guide", none⟩ ⟨7, [3]⟩).2.pendingRequests
      = [3] :=
  ⟨(c10_mock_mode_request ⟨"http://localhost:5001/guide", none⟩ ⟨7, [3]⟩).2.2.2.2.2.1
      (by decide) (by decide) (by decide),
   (c10_mock_mode_request ⟨"http://localhost:5001/guide", none⟩ ⟨7, [3]⟩).2.2.1⟩

/-! ### Cache-layer lemmas -/

theorem getMemory_hit (k : String) (now : Nat) (s : CacheState) (e : MemEntry)
    (h : mapGet k s.memoryCache = some e) (hexp : ¬ now > e.expireTime) :
    getMemory k now s
      = (e.value,
         { s with
           memoryCache :=
             mapSet k { e with accessCount := e.accessCount + 1, lastAccess := now }
               s.memoryCache,
           hits := s.hits + 1 }) := by
  unfold getMemory
  rw [h]
  simp [hexp]

theorem getMemory_expired (k : String) (now : Nat) (s : CacheState) (e : MemEntry)
    (h : mapGet k s.memoryCache = some e) (hexp : now > e.expireTime) :
    getMemory k now s
      = (JVal.null,
         { s with memoryCache := mapDel k s.memoryCache, misses := s.misses + 1 }) := by
  unfold getMemory
  rw [h]
  simp [hexp]

theorem getMemory_none (k : String) (now : Nat) (s : CacheState)
    (h : mapGet k s.memoryCache = none) :
    getMemory k now s = (JVal.null, { s with misses := s.misses + 1 }) := by
  unfold getMemory
  rw [h]

theorem getStorage_hit (k : String) (now : Nat) (s : CacheState) (e : StorEntry)
    (h : mapGet k s.storage = some e) (hexp : ¬ now > e.expireTime) :
    getStorage k now s = (e.value, s) := by
  unfold getStorage
  rw [h]
  simp [hexp]

theorem getStorage_none (k : String) (now : Nat) (s : CacheState)
    (h : mapGet k s.storage = none) :
    getStorage k now s = (JVal.null, s) := by
  unfold getStorage
  rw [h]

theorem mapGet_setMemory_self (k : String) (v : JVal) (ttl now : Nat)
    (s : CacheState) :
    mapGet k (setMemory k v ttl now s).memoryCache = some ⟨v, now + ttl, 0, now⟩ := by
  unfold setMemory cleanExpiredMemoryCache
  exact mapGet_mapSet_filter_self _ (by simp)

/-- C3: after `setMemory(k, v, ttl)` at time `t0`, an immediate `getMemory(k)`
returns `v`, increments the hit counter and bumps `accessCount`/`lastAccess`;
once `ttl` has elapsed (`t1 > t0 + ttl`), `getMemory(k)` returns `null`,
deletes the entry and increments the miss counter, and every later
`getMemory(k)` on the resulting state returns `null` as well. -/
theorem c3_memory_ttl :
    ∀ (k : String) (v : JVal) (ttl t0 t1 : Nat) (s0 : CacheState),
      0 < ttl → t0 + ttl < t1 →
      (getMemory k t0 (setMemory k v ttl t0 s0)).1 = v ∧
      (getMemory k t0 (setMemory k v ttl t0 s0)).2.hits = s0.hits + 1 ∧
      mapGet k (getMemory k t0 (setMemory k v ttl t0 s0)).2.memoryCache
        = some ⟨v, t0 + ttl, 1, t0⟩ ∧
      (getMemory k t1 (setMemory k v ttl t0 s0)).1 = JVal.null ∧
      (getMemory k t1 (setMemory k v ttl t0 s0)).2.misses = s0.misses + 1 ∧
      mapGet k (getMemory k t1 (setMemory k v ttl t0 s0)).2.memoryCache = none ∧
      (∀ t2, (getMemory k t2 (getMemory k t1 (setMemory k v ttl t0 s0)).2).1
        = JVal.null) := by
  intro k v ttl t0 t1 s0 httl ht1
  have hlook := mapGet_setMemory_self k v ttl t0 s0
  have hfresh := getMemory_hit k t0 _ _ hlook (by simp)
  have hstale := getMemory_expired k t1 _ _ hlook (by simp; omega)
  refine ⟨?_, ?_, ?_, ?_, ?_, ?_, ?_⟩
  · rw [hfresh]
  · rw [hfresh]
    simp [setMemory]
  · rw [hfresh]
    exact mapGet_mapSet_self _
  · rw [hstale]
  · rw [hstale]
    simp [setMemory]
  · rw [hstale]
    exact mapGet_mapDel_self _
  · intro t2
    rw [hstale]
    rw [getMemory_none k t2 _ (by exact mapGet_mapDel_self _)]

theorem cacheGet_fst (k : String) (now : Nat) (s : CacheState) :
    (cacheGet k now s).1
      = (if (getMemory k now s).1 ≠ JVal.null then (getMemory k now s).1
         else (getStorage k now (getMemory k now s).2).1) := by
  unfold cacheGet
  by_cases h1 : (getMemory k now s).1 ≠ JVal.null
  · simp [h1]
  · simp only [h1, if_false, if_neg h1]
    by_cases h2 : (getStorage k now (getMemory k now s).2).1 ≠ JVal.null
    · simp [h2]
    · simp [h2]

theorem getStorage_fst_eq_of_storage_eq (k : String) (now : Nat)
    (s s' : CacheState) (h : s.storage = s'.storage) :
    (getStorage k now s).1 = (getStorage k now s').1 := by
  unfold getStorage
  rw [h]
  cases hm : mapGet k s'.storage with
  | none => rfl
  | some e =>
    by_cases hexp : now > e.expireTime
    · simp [hexp]
    · simp [hexp]

/-- C5: after a durable-only `set(k, v, {storageOnly: true})` at `t0` and with
no volatile entry for `k`, `get(k)` at any `t1` within the durable TTL still
returns `v` and re-inserts it into the volatile tier under the default memory
TTL, so an immediately following `getMemory(k)` returns `v` as well. -/
theorem c5_durable_promotion :
    ∀ (k : String) (v : JVal) (t0 t1 : Nat) (s0 : CacheState),
      v ≠ JVal.null →
      mapGet k s0.memoryCache = none →
      t1 ≤ t0 + STORAGE_TTL →
      (cacheGet k t1 (cacheSet k v MEMORY_TTL STORAGE_TTL false true t0 s0)).1 = v ∧
      mapGet k
          (cacheGet k t1 (cacheSet k v MEMORY_TTL STORAGE_TTL false true t0 s0)).2.memoryCache
        = some ⟨v, t1 + MEMORY_TTL, 0, t1⟩ ∧
      (getMemory k t1
          (cacheGet k t1 (cacheSet k v MEMORY_TTL STORAGE_TTL false true t0 s0)).2).1
        = v := by
  intro k v t0 t1 s0 hv hmem ht
  have hset : cacheSet k v MEMORY_TTL STORAGE_TTL false true t0 s0
      = setStorage k v STORAGE_TTL t0 s0 := by
    simp [cacheSet]
  have hmem1 : mapGet k (setStorage k v STORAGE_TTL t0 s0).memoryCache = none := by
    simpa [setStorage] using hmem
  have hmiss := getMemory_none k t1 _ hmem1
  have hstor : mapGet k
      ({ setStorage k v STORAGE_TTL t0 s0 with
          misses := (setStorage k v STORAGE_TTL t0 s0).misses + 1 }).storage
      = some ⟨v, t0 + STORAGE_TTL, t0⟩ := by
    simp only [setStorage]
    exact mapGet_mapSet_self _
  have hshit := getStorage_hit k t1 _ _ hstor (by simp; omega)
  have hget : cacheGet k t1 (cacheSet k v MEMORY_TTL STORAGE_TTL false true t0 s0)
      = (v, setMemory k v MEMORY_TTL t1
              { setStorage k v STORAGE_TTL t0 s0 with
                misses := (setStorage k v STORAGE_TTL t0 s0).misses + 1 }) := by
    rw [hset]
    unfold cacheGet
    rw [hmiss]
    simp only [ne_eq, not_true_eq_false, if_false]
    rw [hshit]
    simp [hv]
  refine ⟨?_, ?_, ?_⟩
  · rw [hget]
  · rw [hget]
    exact mapGet_setMemory_self k v MEMORY_TTL t1 _
  · rw [hget]
    rw [getMemory_hit k t1 _ _ (mapGet_setMemory_self k v MEMORY_TTL t1 _) (by simp)]

/-- C5 witness: a concrete durable-only write at `t0 = 0`, read back at
`t1 = 1000`. -/
theorem c5_durable_promotion_witness :
    (cacheGet "k" 1000
        (cacheSet "k" (JVal.num 7) MEMORY_TTL STORAGE_TTL false true 0
          ⟨[], [], 0, 0, 0, 0⟩)).1 = JVal.num 7 ∧
    (getMemory "k" 1000
        (cacheGet "k" 1000
          (cacheSet "k" (JVal.num 7) MEMORY_TTL STORAGE_TTL false true 0
            ⟨[], [], 0, 0, 0, 0⟩)).2).1 = JVal.num 7 :=
  ⟨(c5_durable_promotion "k" (JVal.num 7) 0 1000 ⟨[], [], 0, 0, 0, 0⟩
      (by decide) (by decide) (by decide)).1,
   (c5_durable_promotion "k" (JVal.num 7) 0 1000 ⟨[], [], 0, 0, 0, 0⟩
      (by decide) (by decide) (by decide)).2.2⟩

/-- C3 witness: set at `t0 = 1000` with `ttl = 50`; an immediate read returns
the value, a read at `t1 = 2000` returns `null`. -/
theorem c3_memory_ttl_witness :
    (getMemory "k" 1000 (setMemory "k" (JVal.str "v") 50 1000
        ⟨[], [], 0, 0, 0, 0⟩)).1 = JVal.str "v" ∧
    (getMemory "k" 2000 (setMemory "k" (JVal.str "v") 50 1000
        ⟨[], [], 0, 0, 0, 0⟩)).1 = JVal.null :=
  ⟨(c3_memory_ttl "k" (JVal.str "v") 50 1000 2000 ⟨[], [], 0, 0, 0, 0⟩
      (by decide) (by decide)).1,
   (c3_memory_ttl "k" (JVal.str "v") 50 1000 2000 ⟨[], [], 0, 0, 0, 0⟩
      (by decide) (by decide)).2.2.2.1⟩

/-- C9 (implicit): a stored `null` is indistinguishable from absence at the
read interface — `getMemory(k)` on a present, unexpired entry whose value is
`null` increments the hit counter yet returns `null`, and `get(k)` then falls
through to the durable tier and produces the same value as if no volatile
entry for `k` existed. -/
theorem c9_null_value_reads_as_miss :
    ∀ (k : String) (now : Nat) (s : CacheState) (e : MemEntry),
      mapGet k s.memoryCache = some e →
      ¬ now > e.expireTime →
      e.value = JVal.null →
      (getMemory k now s).1 = JVal.null ∧
      (getMemory k now s).2.hits = s.hits + 1 ∧
      (cacheGet k now s).1
        = (cacheGet k now { s with memoryCache := mapDel k s.memoryCache }).1 := by
  intro k now s e hlook hexp hval
  have hhit := getMemory_hit k now _ _ hlook hexp
  have hmiss := getMemory_none k now { s with memoryCache := mapDel k s.memoryCache }
    (by simpa using mapGet_mapDel_self s.memoryCache)
  refine ⟨?_, ?_, ?_⟩
  · rw [hhit, hval]
  · rw [hhit]
  · rw [cacheGet_fst, cacheGet_fst, hhit, hmiss, hval]
    simp only [ne_eq, not_true_eq_false, if_false]
    exact getStorage_fst_eq_of_storage_eq k now _ _ rfl

/-- C9 witness: a concrete volatile entry holding `null`. -/
theorem c9_null_value_reads_as_miss_witness :
    (getMemory "k" 5
        ⟨[("k", ⟨JVal.null, 100, 0, 0⟩)], [("k", ⟨JVal.num 3, 100, 0⟩)], 2, 0, 0, 0⟩).1
      = JVal.null ∧
    (getMemory "k" 5
        ⟨[("k", ⟨JVal.null, 100, 0, 0⟩)], [("k", ⟨JVal.num 3, 100, 0⟩)], 2, 0, 0, 0⟩).2.hits
      = 3 ∧
    (cacheGet "k" 5
        ⟨[("k", ⟨JVal.null, 100, 0, 0⟩)], [("k", ⟨JVal.num 3, 100, 0⟩)], 2, 0, 0, 0⟩).1
      = (cacheGet "k" 5
          ⟨[], [("k", ⟨JVal.num 3, 100, 0⟩)], 2, 0, 0, 0⟩).1 := by
  have h := c9_null_value_reads_as_miss "k" 5
    ⟨[("k", ⟨JVal.null, 100, 0, 0⟩)], [("k", ⟨JVal.num 3, 100, 0⟩)], 2, 0, 0, 0⟩
    ⟨JVal.null, 100, 0, 0⟩ (by decide) (by decide) (by decide)
  refine ⟨h.1, h.2.1, ?_⟩
  have h3 := h.2.2
  simpa [mapDel] using h3

/-- C4: `generateKey(prefix, params)` is order-independent — for flat
parameter objects holding the same property/value pairs (distinct keys) in any
property order it returns the same key string (purity/determinism is inherent
in the functional model) — and the key is
`prefix + '_' + base36(|hash|)` where `hash` is the 32-bit-wrapped rolling
hash `hash = hash*31 + charCode` of the canonicalized (key-sorted)
serialization of `params`. -/
theorem c4_generateKey_order_invariant :
    (∀ (pre : String) (p1 p2 : List (String × JVal)),
        p1.Perm p2 →
        p1.Pairwise (fun a b => a.1 ≠ b.1) →
        generateKey pre p1 = generateKey pre p2) ∧
    (∀ (pre : String) (params : List (String × JVal)),
        generateKey pre params
          = pre ++ "_"
              ++ natBase36 ((canonJson params).data.foldl specHashStep 0).natAbs) := by
  constructor
  · intro pre p1 p2 hperm hnd
    unfold generateKey canonJson
    rw [sortPairs_eq_of_perm hperm hnd]
  · intro pre params
    unfold generateKey hashCode
    rw [jsHashStep_eq_specHashStep]

/-- C4 witness: the two property orders of `{lat: 39, lng: 116}` produce the
same key. -/
theorem c4_generateKey_order_invariant_witness :
    generateKey "nearby_spots" [("lat", JVal.num 39), ("lng", JVal.num 116)]
      = generateKey "nearby_spots" [("lng", JVal.num 116), ("lat", JVal.num 39)] :=
  c4_generateKey_order_invariant.1 "nearby_spots"
    [("lat", JVal.num 39), ("lng", JVal.num 116)]
    [("lng", JVal.num 116), ("lat", JVal.num 39)]
    (by decide) (by decide)

/-- C6 counterexample: after `play("a"); play("b")`, the wait attached for
`"a"` is still registered (its canplay/error listeners are *not* detached),
and if its load-timeout guard fires, the auto-retry path re-invokes
`play("a")`, which re-loads `"a"` as the source and replaces the current
session — a stale resumption of `urlA`, contrary to the claim. -/
theorem c6_counterexample_stale_wait :
    (audioAB.pendingWaits.filter (fun w => w.url == "a")).length = 1 ∧
    (fireWaitTimeout 0 30 audioAB).ctxSrc = some "a" ∧
    (fireWaitTimeout 0 30 audioAB).currentAudio
      = some ⟨"a", "ta", 30⟩ := by
  decide

/-- C6 (amended): calling `play(urlA)` then immediately `play(urlB)` leaves
only `urlB`'s session as the current session, but `urlA`'s canplay/error
listeners stay attached until its wait settles: both waits remain registered;
when the platform emits `canplay`, all listeners are detached and both resumed
plays issue the platform play command against the current source `urlB` (so
the canplay path never re-loads `urlA`); but if `urlA`'s load-timeout guard
fires first with retry budget left, `play(urlA)` is re-invoked and re-loads
`urlA`, replacing `urlB`'s session. -/
theorem c6_play_replacement_amended :
    ∀ (urlA urlB tA tB : String) (r nA nB nC : Nat) (s0 : AudioState),
      urlA ≠ urlB →
      s0.ctxActive = true →
      s0.ctxSrc = none →
      s0.pendingWaits = [] →
      ((audioPlay urlB tB r nB (audioPlay urlA tA r nA s0)).currentAudio
        = some ⟨urlB, tB, nB⟩) ∧
      ((audioPlay urlB tB r nB (audioPlay urlA tA r nA s0)).pendingWaits
        = [⟨s0.nextWid, urlA, tA, r⟩, ⟨s0.nextWid + 1, urlB, tB, r⟩]) ∧
      ((fireCanplay (audioPlay urlB tB r nB (audioPlay urlA tA r nA s0))).pendingWaits
        = []) ∧
      ((fireCanplay (audioPlay urlB tB r nB (audioPlay urlA tA r nA s0))).cmds
        = (audioPlay urlB tB r nB (audioPlay urlA tA r nA s0)).cmds
            ++ [AudioCmd.playC urlB, AudioCmd.playC urlB]) ∧
      (0 < r →
        (fireWaitTimeout s0.nextWid nC
            (audioPlay urlB tB r nB (audioPlay urlA tA r nA s0))).ctxSrc
          = some urlA ∧
        (fireWaitTimeout s0.nextWid nC
            (audioPlay urlB tB r nB (audioPlay urlA tA r nA s0))).currentAudio
          = some ⟨urlA, tA, nC⟩) := by
  intro urlA urlB tA tB r nA nB nC s0 hurl hactive hsrc hwaits
  obtain ⟨ca, cs, ip, cur, hist, pw, nw, cmds0, wn⟩ := s0
  simp only at hactive hsrc hwaits
  subst hactive hsrc hwaits
  have hA : audioPlay urlA tA r nA ⟨true, none, ip, cur, hist, [], nw, cmds0, wn⟩
      = ⟨true, some urlA, ip, some ⟨urlA, tA, nA⟩, hist, [⟨nw, urlA, tA, r⟩],
          nw + 1, cmds0, wn⟩ := by
    simp [audioPlay, audioInit]
  have hB : audioPlay urlB tB r nB
        (⟨true, some urlA, ip, some ⟨urlA, tA, nA⟩, hist, [⟨nw, urlA, tA, r⟩],
          nw + 1, cmds0, wn⟩ : AudioState)
      = ⟨true, some urlB, ip, some ⟨urlB, tB, nB⟩, hist,
          [⟨nw, urlA, tA, r⟩, ⟨nw + 1, urlB, tB, r⟩], nw + 2, cmds0, wn⟩ := by
    simp [audioPlay, audioInit, hurl, Ne.symm hurl]
  rw [hA, hB]
  refine ⟨rfl, rfl, ?_, ?_, ?_⟩
  · simp [fireCanplay]
  · simp [fireCanplay]
  · intro hr
    have hfind : (fireWaitTimeout nw nC
        (⟨true, some urlB, ip, some ⟨urlB, tB, nB⟩, hist,
          [⟨nw, urlA, tA, r⟩, ⟨nw + 1, urlB, tB, r⟩], nw + 2, cmds0, wn⟩ : AudioState))
        = audioPlay urlA tA (r - 1) nC
            ⟨true, some urlB, ip, some ⟨urlB, tB, nB⟩, hist,
              [⟨nw + 1, urlB, tB, r⟩], nw + 2, cmds0, wn⟩ := by
      unfold fireWaitTimeout
      have hne : (nw + 1 != nw) = true := by
        simp [bne_iff_ne]
      simp [List.find?, List.filter, hr, hne]
    rw [hfind]
    constructor
    · simp [audioPlay, audioInit, hurl, Ne.symm hurl]
    · simp [audioPlay, audioInit, hurl, Ne.symm hurl]

/-- C6 witness for the amended statement: the concrete `play("a"); play("b")`
scenario. -/
theorem c6_play_replacement_amended_witness :
    audioAB.currentAudio = some ⟨"b", "tb", 20⟩ ∧
    (fireWaitTimeout 0 31 audioAB).ctxSrc = some "a" := by
  have h := c6_play_replacement_amended "a" "b" "ta" "tb" 3 10 20 31 audioIdle
    (by decide) (by decide) (by decide) (by decide)
  exact ⟨h.1, (h.2.2.2.2 (by decide)).1⟩

/-- C7 counterexample: after `destroy()`, `play(url)` does *not* warn-and-noop;
it re-initializes the platform context and starts a fresh session, mutating
`context` and `currentAudio` (and it logs no warning), contrary to the claim
that every such call logs a warning and leaves the state unchanged. -/
theorem c7_counterexample_play_after_destroy :
    (audioDestroy audioAB).ctxActive = false ∧
    (audioDestroy audioAB).currentAudio = none ∧
    (audioPlay "u" "t" 3 40 (audioDestroy audioAB)).ctxActive = true ∧
    (audioPlay "u" "t" 3 40 (audioDestroy audioAB)).currentAudio
      = some ⟨"u", "t", 40⟩ ∧
    (audioPlay "u" "t" 3 40 (audioDestroy audioAB)).warnings
      = (audioDestroy audioAB).warnings := by
  decide

/-- C7 (amended): after `destroy()`, `pause()` and `seek(time)` complete
without raising, log exactly one warning and leave the state otherwise
unchanged (the model is total, so no call raises); `play(url)`, however,
completes without raising but re-initializes the audio context and starts a
fresh session — mutating `context`/`currentAudio`, with no warning — while
leaving the playback history unchanged. -/
theorem c7_destroyed_commands_amended :
    ∀ (s : AudioState) (u t : String) (r n x : Nat),
      audioPause (audioDestroy s)
        = { audioDestroy s with warnings := (audioDestroy s).warnings + 1 } ∧
      audioSeek x (audioDestroy s)
        = { audioDestroy s with warnings := (audioDestroy s).warnings + 1 } ∧
      (audioPlay u t r n (audioDestroy s)).ctxActive = true ∧
      (audioPlay u t r n (audioDestroy s)).currentAudio = some ⟨u, t, n⟩ ∧
      (audioPlay u t r n (audioDestroy s)).warnings = s.warnings ∧
      (audioPlay u t r n (audioDestroy s)).playbackHistory = s.playbackHistory := by
  intro s u t r n x
  refine ⟨?_, ?_, ?_, ?_, ?_, ?_⟩
  · simp [audioPause, audioDestroy]
  · simp [audioSeek, audioDestroy]
  · simp [audioPlay, audioInit, audioDestroy]
  · simp [audioPlay, audioInit, audioDestroy]
  · simp [audioPlay, audioInit, audioDestroy]
  · simp [audioPlay, audioInit, audioDestroy]

/-! ### binary64 lemmas for `getStats` -/

theorem bitLenAux_bounds :
    ∀ fuel n, n ≤ fuel → n ≠ 0 →
      1 ≤ bitLenAux fuel n ∧ 2 ^ (bitLenAux fuel n - 1) ≤ n ∧ n < 2 ^ bitLenAux fuel n := by
  intro fuel
  induction fuel with
  | zero => intro n hle hne; omega
  | succ f ih =>
    intro n hle hne
    rw [bitLenAux]
    simp only [if_neg hne]
    by_cases h2 : n / 2 = 0
    · have hn1 : n = 1 := by omega
      subst hn1
      have hz : ∀ fuel, bitLenAux fuel 0 = 0 := by
        intro fuel
        cases fuel <;> simp [bitLenAux]
      simp [hz]
    · have hrec := ih (n / 2) (by omega) h2
      obtain ⟨hb1, hb2, hb3⟩ := hrec
      refine ⟨by omega, ?_, ?_⟩
      · have : 2 ^ (bitLenAux f (n / 2) - 1 + 1) ≤ 2 * (n / 2) := by
          rw [pow_succ]
          omega
        have heq : bitLenAux f (n / 2) - 1 + 1 = bitLenAux f (n / 2) := by omega
        rw [heq] at this
        simpa using by omega
      · have : n < 2 ^ (bitLenAux f (n / 2) + 1) := by
          rw [pow_succ]
          omega
        simpa using this

theorem bitLen_bounds {n : Nat} (hn : n ≠ 0) :
    1 ≤ bitLen n ∧ 2 ^ (bitLen n - 1) ≤ n ∧ n < 2 ^ bitLen n :=
  bitLenAux_bounds (n + 1) n (by omega) hn

theorem bitLen_le_bitLen {h t : Nat} (hh : h ≠ 0) (hht : h ≤ t) :
    bitLen h ≤ bitLen t := by
  have ht : t ≠ 0 := by omega
  obtain ⟨hb1, hb2, _⟩ := bitLen_bounds hh
  obtain ⟨_, _, hb6⟩ := bitLen_bounds ht
  have : 2 ^ (bitLen h - 1) < 2 ^ bitLen t := by omega
  have := (Nat.pow_lt_pow_iff_right (by omega : 1 < 2)).1 this
  omega

theorem flDivShift_ge {h t : Nat} (hh : h ≠ 0) (hht : h ≤ t) :
    52 ≤ flDivShift h t := by
  have hb := bitLen_le_bitLen hh hht
  unfold flDivShift
  split <;> omega

theorem flDivShift_upper {h t : Nat} (hh : h ≠ 0) (hht : h ≤ t) :
    h * 2 ^ flDivShift h t < t * 2 ^ 53 := by
  have ht : t ≠ 0 := by omega
  have hble := bitLen_le_bitLen hh hht
  obtain ⟨hh1, hh2, hh3⟩ := bitLen_bounds hh
  obtain ⟨ht1, ht2, ht3⟩ := bitLen_bounds ht
  unfold flDivShift
  split
  · -- s = s0 = 52 + bitLen t - bitLen h, and h < 2 ^ bitLen h
    have hs0 : 52 + bitLen t - bitLen h + bitLen h = 52 + bitLen t := by omega
    have h1 : h * 2 ^ (52 + bitLen t - bitLen h) < 2 ^ (52 + bitLen t) := by
      calc h * 2 ^ (52 + bitLen t - bitLen h)
          < 2 ^ bitLen h * 2 ^ (52 + bitLen t - bitLen h) := by
            exact (Nat.mul_lt_mul_right (Nat.pow_pos (by omega : 0 < 2))).2 hh3
        _ = 2 ^ (52 + bitLen t) := by rw [← pow_add, Nat.add_sub_cancel' (by omega)]
    have h2 : 2 ^ (52 + bitLen t) ≤ t * 2 ^ 53 := by
      calc 2 ^ (52 + bitLen t) = 2 ^ (bitLen t - 1) * 2 ^ 53 := by
            rw [← pow_add]
            congr 1
            omega
        _ ≤ t * 2 ^ 53 := Nat.mul_le_mul_right _ ht2
    omega
  · -- s = s0 + 1, and the test failed: h * 2 ^ s0 < t * 2 ^ 52
    next hfail =>
      push_neg at hfail
      have : h * 2 ^ (52 + bitLen t - bitLen h + 1)
          = h * 2 ^ (52 + bitLen t - bitLen h) * 2 := by
        rw [pow_succ]
        ring
      rw [this]
      have h53 : (2 : Nat) ^ 53 = 2 ^ 52 * 2 := by norm_num
      rw [h53]
      omega

theorem rndHalfEvenDiv_le (a b : Nat) : rndHalfEvenDiv a b ≤ a / b + 1 := by
  unfold rndHalfEvenDiv
  split_ifs <;> omega

theorem flDiv_m_le {h t : Nat} (hh : h ≠ 0) (hht : h ≤ t) :
    (flDiv h t).m ≤ 2 ^ 53 := by
  have ht : 0 < t := by omega
  have hup := flDivShift_upper hh hht
  have hdiv : h * 2 ^ flDivShift h t / t < 2 ^ 53 :=
    (Nat.div_lt_iff_lt_mul ht).2 (by omega)
  have := rndHalfEvenDiv_le (h * 2 ^ flDivShift h t) t
  simp only [flDiv, if_neg hh]
  omega

theorem rndHalfEvenDiv_abs_err (a b : Nat) (hb : 0 < b) :
    |(rndHalfEvenDiv a b : ℚ) - (a : ℚ) / b| ≤ 1 / 2 := by
  have hb' : (0 : ℚ) < b := by exact_mod_cast hb
  have hbne : (b : ℚ) ≠ 0 := ne_of_gt hb'
  have hab : (a : ℚ) = (b : ℚ) * ((a / b : ℕ) : ℚ) + ((a % b : ℕ) : ℚ) := by
    exact_mod_cast (Nat.div_add_mod a b).symm
  have hdiv : (a : ℚ) / b = ((a / b : ℕ) : ℚ) + ((a % b : ℕ) : ℚ) / b := by
    rw [hab]
    field_simp
    ring
  have hf0 : (0 : ℚ) ≤ ((a % b : ℕ) : ℚ) / b := by positivity
  have hf1 : ((a % b : ℕ) : ℚ) / b < 1 := by
    rw [div_lt_one hb']
    exact_mod_cast Nat.mod_lt a hb
  unfold rndHalfEvenDiv
  split_ifs with h1 h2 h3
  · have hfh : ((a % b : ℕ) : ℚ) / b ≤ 1 / 2 := by
      rw [div_le_div_iff₀ hb' (by norm_num : (0 : ℚ) < 2)]
      have h2r : (2 : ℚ) * ((a % b : ℕ) : ℚ) ≤ (b : ℚ) := by
        exact_mod_cast Nat.le_of_lt h1
      linarith
    rw [hdiv, abs_le]
    constructor <;> linarith
  · have hfh : 1 / 2 ≤ ((a % b : ℕ) : ℚ) / b := by
      rw [div_le_div_iff₀ (by norm_num : (0 : ℚ) < 2) hb']
      have h2r : (b : ℚ) ≤ (2 : ℚ) * ((a % b : ℕ) : ℚ) := by
        exact_mod_cast Nat.le_of_lt h2
      linarith
    rw [hdiv]
    push_cast
    rw [abs_le]
    constructor <;> linarith
  · have hfe : ((a % b : ℕ) : ℚ) / b = 1 / 2 := by
      rw [div_eq_div_iff hbne (by norm_num : (2 : ℚ) ≠ 0)]
      have h2r : (2 : ℚ) * ((a % b : ℕ) : ℚ) = (b : ℚ) := by
        exact_mod_cast (by omega : 2 * (a % b) = b)
      linarith
    rw [hdiv, abs_le]
    constructor <;> linarith
  · have hfe : ((a % b : ℕ) : ℚ) / b = 1 / 2 := by
      rw [div_eq_div_iff hbne (by norm_num : (2 : ℚ) ≠ 0)]
      have h2r : (2 : ℚ) * ((a % b : ℕ) : ℚ) = (b : ℚ) := by
        exact_mod_cast (by omega : 2 * (a % b) = b)
      linarith
    rw [hdiv]
    push_cast
    rw [abs_le]
    constructor <;> linarith

theorem fpValue_nonneg (x : FP) : 0 ≤ fpValue x := by
  unfold fpValue
  positivity

theorem flDiv_exp_nonpos {h t : Nat} (hh : h ≠ 0) (hht : h ≤ t) :
    (flDiv h t).exp ≤ 0 := by
  have := flDivShift_ge hh hht
  simp only [flDiv, if_neg hh]
  omega

theorem flDiv_err {h t : Nat} (hh : h ≠ 0) (hht : h ≤ t) :
    |fpValue (flDiv h t) - (h : ℚ) / t| ≤ 1 / 2 ^ 53 := by
  have ht : 0 < t := by omega
  have ht' : (0 : ℚ) < t := by exact_mod_cast ht
  have hs52 := flDivShift_ge hh hht
  have herr := rndHalfEvenDiv_abs_err (h * 2 ^ flDivShift h t) t ht
  have hval : fpValue (flDiv h t)
      = ((rndHalfEvenDiv (h * 2 ^ flDivShift h t) t : ℕ) : ℚ)
          * (2 : ℚ) ^ (-(flDivShift h t : ℤ)) := by
    simp only [flDiv, if_neg hh, fpValue]
    congr 2
    omega
  have hcancel : ((h * 2 ^ flDivShift h t : ℕ) : ℚ) / t
        * (2 : ℚ) ^ (-(flDivShift h t : ℤ))
      = (h : ℚ) / t := by
    push_cast
    rw [zpow_neg, zpow_natCast]
    field_simp
    ring
  have hdiff : fpValue (flDiv h t) - (h : ℚ) / t
      = (((rndHalfEvenDiv (h * 2 ^ flDivShift h t) t : ℕ) : ℚ)
          - ((h * 2 ^ flDivShift h t : ℕ) : ℚ) / t)
        * (2 : ℚ) ^ (-(flDivShift h t : ℤ)) := by
    rw [sub_mul, ← hval, hcancel]
  rw [hdiff, abs_mul,
    abs_of_pos (zpow_pos (by norm_num : (0 : ℚ) < 2) (-(flDivShift h t : ℤ)))]
  have hle1 : (2 : ℚ) ^ (-(flDivShift h t : ℤ)) ≤ (2 : ℚ) ^ (-(52 : ℤ)) :=
    zpow_le_zpow_right₀ (by norm_num) (by omega)
  have hmul := mul_le_mul herr hle1
    (le_of_lt (zpow_pos (by norm_num : (0 : ℚ) < 2) _)) (by norm_num)
  have heq : (1 : ℚ) / 2 * (2 : ℚ) ^ (-(52 : ℤ)) = 1 / 2 ^ 53 := by
    rw [zpow_neg, show ((52 : ℤ)) = ((52 : ℕ) : ℤ) from rfl, zpow_natCast]
    norm_num
  linarith

theorem flMul100_err {x : FP} (hm : x.m ≤ 2 ^ 53) (hexp : x.exp ≤ 0) :
    |fpValue (flMul100 x) - 100 * fpValue x| ≤ 1 / 2 ^ 46 := by
  by_cases hz : x.m = 0
  · have : fpValue x = 0 := by
      unfold fpValue
      rw [hz]
      norm_num
    simp only [flMul100, hz, if_pos rfl, this]
    unfold fpValue
    norm_num
  · have hpne : x.m * 100 ≠ 0 := Nat.mul_ne_zero hz (by norm_num)
    obtain ⟨hb1, hb2, hb3⟩ := bitLen_bounds hpne
    have hpbound : x.m * 100 < 2 ^ 60 := by
      have h1 : x.m * 100 ≤ 2 ^ 53 * 100 := Nat.mul_le_mul_right _ hm
      have h2 : (2 : Nat) ^ 53 * 100 < 2 ^ 60 := by norm_num
      omega
    have hbl : bitLen (x.m * 100) ≤ 60 := by
      by_contra hcon
      push_neg at hcon
      have h60 : (2 : Nat) ^ 60 ≤ 2 ^ (bitLen (x.m * 100) - 1) :=
        Nat.pow_le_pow_right (by omega) (by omega)
      omega
    have hd7 : bitLen (x.m * 100) - 53 ≤ 7 := by omega
    have hdpos : 0 < (2 : Nat) ^ (bitLen (x.m * 100) - 53) :=
      Nat.pow_pos (by omega)
    have herr := rndHalfEvenDiv_abs_err (x.m * 100) (2 ^ (bitLen (x.m * 100) - 53)) hdpos
    have hval : fpValue (flMul100 x)
        = ((rndHalfEvenDiv (x.m * 100) (2 ^ (bitLen (x.m * 100) - 53)) : ℕ) : ℚ)
            * (2 : ℚ) ^ (x.exp + (bitLen (x.m * 100) - 53 : ℕ) - 52) := by
      simp only [flMul100, if_neg hz, fpValue]
    have htgt : 100 * fpValue x = ((x.m * 100 : ℕ) : ℚ) * (2 : ℚ) ^ (x.exp - 52) := by
      unfold fpValue
      push_cast
      ring
    have hcancel : ((x.m * 100 : ℕ) : ℚ) / ((2 ^ (bitLen (x.m * 100) - 53) : ℕ) : ℚ)
          * (2 : ℚ) ^ (x.exp + (bitLen (x.m * 100) - 53 : ℕ) - 52)
        = ((x.m * 100 : ℕ) : ℚ) * (2 : ℚ) ^ (x.exp - 52) := by
      have hsplit : (2 : ℚ) ^ (x.exp + (bitLen (x.m * 100) - 53 : ℕ) - 52)
          = (2 : ℚ) ^ (x.exp - 52) * (2 : ℚ) ^ ((bitLen (x.m * 100) - 53 : ℕ) : ℤ) := by
        rw [← zpow_add₀ (by norm_num : (2 : ℚ) ≠ 0)]
        congr 1
        ring
      rw [hsplit, zpow_natCast]
      push_cast
      have h2d : ((2 : ℚ)) ^ (bitLen (x.m * 100) - 53) ≠ 0 := by positivity
      field_simp
      ring
    have hdiff : fpValue (flMul100 x) - 100 * fpValue x
        = (((rndHalfEvenDiv (x.m * 100) (2 ^ (bitLen (x.m * 100) - 53)) : ℕ) : ℚ)
            - ((x.m * 100 : ℕ) : ℚ) / ((2 ^ (bitLen (x.m * 100) - 53) : ℕ) : ℚ))
          * (2 : ℚ) ^ (x.exp + (bitLen (x.m * 100) - 53 : ℕ) - 52) := by
      rw [sub_mul, ← hval, hcancel, htgt]
    rw [hdiff, abs_mul,
      abs_of_pos (zpow_pos (by norm_num : (0 : ℚ) < 2) _)]
    have hle1 : (2 : ℚ) ^ (x.exp + (bitLen (x.m * 100) - 53 : ℕ) - 52)
        ≤ (2 : ℚ) ^ (-(45 : ℤ)) :=
      zpow_le_zpow_right₀ (by norm_num) (by omega)
    have hmul := mul_le_mul herr hle1
      (le_of_lt (zpow_pos (by norm_num : (0 : ℚ) < 2) _)) (by norm_num)
    have heq : (1 : ℚ) / 2 * (2 : ℚ) ^ (-(45 : ℤ)) = 1 / 2 ^ 46 := by
      rw [zpow_neg, show ((45 : ℤ)) = ((45 : ℕ) : ℤ) from rfl, zpow_natCast]
      norm_num
    linarith

theorem fpHundredths_eq (x : FP) :
    fpHundredths x = (⌊fpValue x * 100 + 1 / 2⌋).toNat := by
  unfold fpHundredths fpValue
  split_ifs with hexp
  · have hE : x.exp - 52 = (((x.exp - 52).toNat : ℕ) : ℤ) :=
      (Int.toNat_of_nonneg (by omega)).symm
    rw [hE, zpow_natCast]
    have harg : (x.m : ℚ) * (2 : ℚ) ^ (x.exp - 52).toNat * 100 + 1 / 2
        = (((x.m * 100 * 2 ^ (x.exp - 52).toNat : ℕ) : ℤ) : ℚ) + 1 / 2 := by
      push_cast
      ring
    rw [harg, add_comm, Int.floor_add_int,
      show (⌊(1 / 2 : ℚ)⌋ : ℤ) = 0 by norm_num, zero_add]
    exact (Int.toNat_natCast _).symm
  · push_neg at hexp
    have hEF : x.exp - 52 = -(((52 - x.exp).toNat : ℕ) : ℤ) := by
      rw [Int.toNat_of_nonneg (by omega)]
      ring
    rw [hEF, zpow_neg, zpow_natCast]
    have h2F : ((2 : ℚ)) ^ (52 - x.exp).toNat ≠ 0 := by positivity
    have harg : (x.m : ℚ) * ((2 : ℚ) ^ (52 - x.exp).toNat)⁻¹ * 100 + 1 / 2
        = (((2 * (x.m * 100) + 2 ^ (52 - x.exp).toNat : ℕ) : ℤ) : ℚ)
            / ((2 ^ ((52 - x.exp).toNat + 1) : ℕ) : ℚ) := by
      push_cast
      rw [pow_succ]
      field_simp
      ring
    rw [harg, Rat.floor_intCast_div_natCast,
      show ((2 * (x.m * 100) + 2 ^ (52 - x.exp).toNat : ℕ) : ℤ)
            / ((2 ^ ((52 - x.exp).toNat + 1) : ℕ) : ℤ)
          = (((2 * (x.m * 100) + 2 ^ (52 - x.exp).toNat) / 2 ^ ((52 - x.exp).toNat + 1) : ℕ) : ℤ)
        from (Int.ofNat_tdiv _ _).symm,
      Int.toNat_natCast]

/-- C8 counterexample: at `hits = 23`, `misses = 137` the exact percentage is
`14.375`, whose two-decimal formatting (ECMA `toFixed` on the exact value,
the larger integer on the tie) is `"14.38"`; but the source divides in
binary64 — `23/160*100` evaluates to the double `14.374999999999998…` — and
prints `"14.37%"`.  So `hitRate` is *not* `hits/(hits+misses)*100` formatted
to two decimal places. -/
theorem c8_counterexample_hitRate_rounding :
    (getStats ⟨[], [], 23, 137, 0, 0⟩).hitRate = "14.37%" ∧
    toFixed2 (((23 : ℕ) : ℚ) / ((23 + 137 : ℕ) : ℚ) * 100) = "14.38" ∧
    (getStats ⟨[], [], 23, 137, 0, 0⟩).hitRate
      ≠ toFixed2 (((23 : ℕ) : ℚ) / ((23 + 137 : ℕ) : ℚ) * 100) ++ "%" := by
  have h1 : (getStats ⟨[], [], 23, 137, 0, 0⟩).hitRate = "14.37%" := by decide
  have h2 : toFixed2 (((23 : ℕ) : ℚ) / ((23 + 137 : ℕ) : ℚ) * 100) = "14.38" := by
    rw [toFixed2_rate_eq_counter_formula 23 (23 + 137) (by omega)]
    decide
  refine ⟨h1, h2, ?_⟩
  rw [h1, h2]
  decide

/-- C8 (amended): `getStats()` reports `hitRate` as ECMA `toFixed(2)` of the
binary64 evaluation of `hits / (hits + misses) * 100` (`"0%"` when
`hits + misses = 0`), computed purely from the recorded counters; the
rendered hundredths integer is within `1/2 + 10⁻⁶` of the exact
`10000·hits/(hits+misses)` — i.e. it agrees with the exact two-decimal
half-up rounding except when the floating-point value lands on the other
side of a rounding boundary (as at `hits = 23, misses = 137`); `memorySize`
equals the volatile-tier entry count and the counters are reported
verbatim. -/
theorem c8_getStats_hitRate_double :
    ∀ s : CacheState,
      (s.hits + s.misses = 0 → (getStats s).hitRate = "0%") ∧
      (0 < s.hits + s.misses →
        ∃ n : ℕ,
          (getStats s).hitRate = fmtHundredths n ++ "%" ∧
          |(n : ℚ) - 10000 * s.hits / (s.hits + s.misses)| ≤ 1 / 2 + 1 / 1000000) ∧
      (getStats s).memorySize = s.memoryCache.length ∧
      (getStats s).hits = s.hits ∧
      (getStats s).misses = s.misses ∧
      (getStats s).sets = s.sets ∧
      (getStats s).deletes = s.deletes := by
  intro s
  refine ⟨?_, ?_, rfl, rfl, rfl, rfl, rfl⟩
  · intro h0
    unfold getStats
    simp [h0]
  · intro hpos
    refine ⟨fpHundredths (flMul100 (flDiv s.hits (s.hits + s.misses))), ?_, ?_⟩
    · unfold getStats fpToFixed2
      simp [hpos]
    · by_cases hh : s.hits = 0
      · have hn0 : fpHundredths (flMul100 (flDiv s.hits (s.hits + s.misses))) = 0 := by
          rw [hh]
          rw [show flDiv 0 (0 + s.misses) = ⟨0, 0⟩ from rfl]
          decide
        rw [hn0, hh]
        norm_num
      · set t := s.hits + s.misses with ht
        have hht : s.hits ≤ t := by omega
        have ht' : (0 : ℚ) < (t : ℚ) := by exact_mod_cast hpos
        have h1 := flDiv_err hh hht
        have h2 := flMul100_err (flDiv_m_le hh hht) (flDiv_exp_nonpos hh hht)
        have hbr := fpHundredths_eq (flMul100 (flDiv s.hits t))
        set vy := fpValue (flMul100 (flDiv s.hits t)) with hvy
        have hvy0 : 0 ≤ vy := fpValue_nonneg _
        have hfl0 : (0 : ℤ) ≤ ⌊vy * 100 + 1 / 2⌋ := by
          rw [Int.le_floor]
          push_cast
          linarith
        have hcast : ((fpHundredths (flMul100 (flDiv s.hits t)) : ℕ) : ℚ)
            = ((⌊vy * 100 + 1 / 2⌋ : ℤ) : ℚ) := by
          rw [hbr]
          exact_mod_cast congrArg (fun z : ℤ => (z : ℚ)) (Int.toNat_of_nonneg hfl0)
        have hfle : ((⌊vy * 100 + 1 / 2⌋ : ℤ) : ℚ) ≤ vy * 100 + 1 / 2 :=
          Int.floor_le _
        have hflg : vy * 100 + 1 / 2 < ((⌊vy * 100 + 1 / 2⌋ : ℤ) : ℚ) + 1 :=
          Int.lt_floor_add_one _
        have htq : ((t : ℕ) : ℚ) = (s.hits : ℚ) + (s.misses : ℚ) := by
          rw [ht]
          push_cast
          ring
        have hqdef : 10000 * (s.hits : ℚ) / (t : ℚ)
            = 100 * (100 * ((s.hits : ℚ) / (t : ℚ))) := by
          field_simp
          ring
        have habs1 := abs_le.1 h1
        have habs2 := abs_le.1 h2
        have hsmall : (100 : ℚ) * (1 / 2 ^ 46) + 10000 * (1 / 2 ^ 53) ≤ 1 / 1000000 := by
          norm_num
        rw [hcast, ← htq, hqdef, abs_le]
        constructor
        · nlinarith [habs1.1, habs1.2, habs2.1, habs2.2, hfle, hflg]
        · nlinarith [habs1.1, habs1.2, habs2.1, habs2.2, hfle, hflg]

/-- C8 witness for the amended statement: at `hits = 1`, `misses = 2` the
reported rate is within the stated distance of the exact `10000/3`
hundredths. -/
theorem c8_getStats_hitRate_double_witness :
    0 < 1 + 2 ∧
    ∃ n : ℕ,
      (getStats ⟨[], [], 1, 2, 0, 0⟩).hitRate = fmtHundredths n ++ "%" ∧
      |(n : ℚ) - 10000 * ((1 : ℕ) : ℚ) / (((1 : ℕ) : ℚ) + ((2 : ℕ) : ℚ))|
        ≤ 1 / 2 + 1 / 1000000 :=
  ⟨by decide, (c8_getStats_hitRate_double ⟨[], [], 1, 2, 0, 0⟩).2.1 (by decide)⟩
